import Mathlib

/-!
Shallow embedding of the SOQL query-builder core of the easyforce repository
(file `src/unnamed/part_000`): the `QueryBuilder` class (`buildQuery`,
`formatValue`), the `QueryOptimizer.analyzeQuery` static analysis, the
`QueryValidator.validateQuery` checks, the `QueryHistory` store bound, the
`SavedQueries`/`QueryHistory` `getAll` error handling and the `UndoManager`
state machine, together with theorems settling the stated properties.

Strings are modelled by Lean `String` (a wrapper around `List Char`); the
JavaScript `Array.prototype.join` is modelled by `joinWith`; the JavaScript
`String.prototype.includes` (case-sensitive substring test) is modelled by
`jsIncludes`.
-/

namespace Easyforce

/-- A filter predicate of the builder (`this.conditions` elements): field,
operator, value, declared field type, optional group id (`condition.groupId`
may be absent/undefined in the source; absent and empty-string group ids are
both falsy in JavaScript, hence `Option String` plus an emptiness test). -/
structure Condition where
  field : String
  operator : String
  value : String
  type : String
  groupId : Option String
deriving Repr, DecidableEq

/-- One `this.orderBy` entry: `{field, direction}`. -/
structure OrderSpec where
  field : String
  direction : String
deriving Repr, DecidableEq

/-- The mutable state of the `QueryBuilder` class that `buildQuery` reads.
`selectedFields` is a JavaScript `Set`, iterated in insertion order by
`Array.from`, hence a `List String` here; `limit` is a number or `null`
(`parseInt` result), hence `Option Int`. -/
structure BuilderState where
  conditions : List Condition
  selectedObject : Option String
  selectedFields : List String
  orderBy : List OrderSpec
  limit : Option Int
  groupOperator : String
deriving Repr

/-- JavaScript `Array.prototype.join(sep)`. -/
def joinWith (sep : String) : List String → String
  | [] => ""
  | [x] => x
  | x :: y :: rest => x ++ sep ++ joinWith sep (y :: rest)

/-- Scan all suffixes of a character list with a predicate (including the
empty suffix), used to model substring and regex searches. -/
def scanAny (f : List Char → Bool) : List Char → Bool
  | [] => f []
  | c :: s => f (c :: s) || scanAny f (s)

/-- JavaScript `s.includes(pat)`: case-sensitive substring containment. -/
def jsIncludes (s pat : String) : Bool :=
  scanAny (fun t => pat.data.isPrefixOf t) s.data

/-- Number of positions at which `p` occurs as a contiguous block of `s`
(used to count boolean-operator occurrences in a rendered WHERE clause). -/
def countOccs (p : List Char) : List Char → Nat
  | [] => 0
  | c :: s => (if p.isPrefixOf (c :: s) then 1 else 0) + countOccs p s

/-- The single-quote character (code 39). -/
def quoteChar : Char := Char.ofNat 39

/-- Character-level worker for `value.replace(/'/g, "\\'")`: every single
quote is replaced by a backslash followed by a single quote. -/
def escapeQuotesAux : List Char → List Char
  | [] => []
  | c :: r =>
    if c = quoteChar then '\\' :: quoteChar :: escapeQuotesAux r
    else c :: escapeQuotesAux r

/-- JavaScript `value.replace(/'/g, "\\'")`. -/
def escapeQuotes (value : String) : String := ⟨escapeQuotesAux value.data⟩

/-- QueryBuilder.formatValue (src/unnamed/part_000 lines 76-97): quote and
escape a condition value according to its declared field type. -/
def formatValue (value : String) (ty : String) : String :=
  if ty = "string" ∨ ty = "textarea" ∨ ty = "url" ∨ ty = "email" ∨ ty = "phone" then
    "'" ++ escapeQuotes value ++ "'"
  else if ty = "boolean" then value
  else if ty = "date" then
    if jsIncludes value "'" then value else "'" ++ value ++ "'"
  else if ty = "datetime" then
    if jsIncludes value "'" then value else value
  else if ty = "number" ∨ ty = "currency" ∨ ty = "percent" then value
  else "'" ++ escapeQuotes value ++ "'"

/-- The rendering of one condition inside the WHERE clause:
`` `${condition.field} ${condition.operator} ${this.formatValue(...)}` ``. -/
def renderCondition (c : Condition) : String :=
  c.field ++ " " ++ c.operator ++ " " ++ formatValue c.value c.type

/-- The group key of a condition: `condition.groupId || 'default'`
(an absent or empty `groupId` is falsy in JavaScript). -/
def effectiveGroupId (c : Condition) : String :=
  match c.groupId with
  | none => "default"
  | some s => if s.isEmpty then "default" else s

/-- The group keys of the `reduce` accumulator object in `buildQuery`, in
first-appearance order.  (JavaScript `Object.entries` would move keys that
are canonical numeric strings to the front in numeric order; the app never
creates such group ids, and the properties proved below are invariant under
group order.) -/
def groupKeys (conds : List Condition) : List String :=
  conds.foldl (fun ks c =>
    let k := effectiveGroupId c
    if k ∈ ks then ks else ks ++ [k]) []

/-- The conditions accumulated under one group key, in original order
(the `reduce` pushes conditions in traversal order). -/
def groupConds (conds : List Condition) (k : String) : List Condition :=
  conds.filter (fun c => effectiveGroupId c = k)

/-- The per-group string of `buildQuery`: condition strings joined by the
single global group operator, parenthesised only when the group has more
than one condition. -/
def groupString (op : String) (conds : List Condition) : String :=
  let s := joinWith (" " ++ op ++ " ") (conds.map renderCondition)
  if conds.length > 1 then "(" ++ s ++ ")" else s

/-- The WHERE-clause body of `buildQuery`: per-group strings joined by the
same single global group operator. -/
def whereClause (st : BuilderState) : String :=
  joinWith (" " ++ st.groupOperator ++ " ")
    ((groupKeys st.conditions).map
      (fun k => groupString st.groupOperator (groupConds st.conditions k)))

/-- QueryBuilder.buildQuery (src/unnamed/part_000 lines 22-74). -/
def buildQuery (st : BuilderState) : String :=
  let q := "SELECT " ++
    (if st.selectedFields.isEmpty then "Id" else joinWith ", " st.selectedFields)
  let q := match st.selectedObject with
    | some o => if o.isEmpty then q else q ++ " FROM " ++ o
    | none => q
  let q := if st.conditions.isEmpty then q else q ++ " WHERE " ++ whereClause st
  let q := if st.orderBy.isEmpty then q
    else q ++ " ORDER BY " ++
      joinWith ", " (st.orderBy.map (fun o => o.field ++ " " ++ o.direction))
  match st.limit with
  | some n => if n = 0 then q else q ++ " LIMIT " ++ toString n
  | none => q

/-! ## QueryOptimizer and QueryValidator (regex scanning machinery)

The source inspects the query string with JavaScript regexes.  They are
modelled character by character: `ciPrefixRest` is a case-insensitive
literal match at the front of a suffix (the `/i` flag), `scanAny` scans all
start positions (leftmost search), `isWsChar` models `\s` (ASCII subset) and
`wordChar` models `\w`. -/

/-- ASCII model of the regex class `\s`. -/
def isWsChar (c : Char) : Bool :=
  c = ' ' || c = '\t' || c = '\n' || c = '\r' || c = '\x0b' || c = '\x0c'

/-- Regex class `\w`: ASCII letters, digits and underscore. -/
def wordChar (c : Char) : Bool := c.isAlphanum || c = '_'

/-- Case-insensitive literal match of `pat` at the front of `t`; returns the
rest of `t` on success (the `/i` flag compares lower-cased characters). -/
def ciPrefixRest : List Char → List Char → Option (List Char)
  | [], s => some s
  | _ :: _, [] => none
  | p :: ps, c :: s => if p.toLower = c.toLower then ciPrefixRest ps s else none

/-- JavaScript `q.match(/pat/i) !== null` for a literal pattern `pat`. -/
def matchCI (s pat : String) : Bool :=
  scanAny (fun t => (ciPrefixRest pat.data t).isSome) s.data

/-- Match of `/SELECT\s+\*/i` starting exactly at the given suffix. -/
def selectStarAt (t : List Char) : Bool :=
  match ciPrefixRest "SELECT".data t with
  | none => false
  | some r =>
    match r with
    | [] => false
    | c :: r2 => isWsChar c && ((r2.dropWhile isWsChar).head? == some '*')

/-- JavaScript `query.match(/SELECT\s+\*/i) !== null`. -/
def testSelectStar (q : String) : Bool := scanAny selectStarAt q.data

/-- Whether the tail pattern `(?:\s+ORDER BY|\s+LIMIT|$)` of the WHERE-clause
regex matches at the front of the given suffix.  `ORDER BY` and `LIMIT`
start with non-whitespace, so the greedy `\s+` is forced to consume the
whole leading whitespace run. -/
def altTailHit (t : List Char) : Bool :=
  match t with
  | [] => true
  | c :: r =>
    isWsChar c &&
      (let u := List.dropWhile isWsChar (c :: r)
       (ciPrefixRest "ORDER BY".data u).isSome || (ciPrefixRest "LIMIT".data u).isSome)

/-- The lazy capture `(.*?)`: shortest prefix whose complement starts with
the tail pattern (the `$` alternative guarantees termination at the end). -/
def captureUpTo : List Char → List Char
  | [] => []
  | c :: s => if altTailHit (c :: s) then [] else c :: captureUpTo s

/-- Leftmost position where `/WHERE\s+/i` matches; returns the suffix right
after `WHERE`.  A position where `WHERE` matches but no whitespace follows
cannot start a match of the full regex, so the scan continues. -/
def findWhereRest : List Char → Option (List Char)
  | [] => none
  | c :: s =>
    match ciPrefixRest "WHERE".data (c :: s) with
    | some r => if (r.head?.map isWsChar).getD false then some r else findWhereRest s
    | none => findWhereRest s

/-- JavaScript `query.match(/WHERE\s+(.*?)(?:\s+ORDER BY|\s+LIMIT|$)/i)`,
returning the captured WHERE clause.  The greedy `\s+` succeeds with its
maximal run because the `$` alternative always lets the rest match. -/
def whereClauseMatch (q : String) : Option String :=
  match findWhereRest q.data with
  | none => none
  | some r => some (String.mk (captureUpTo (r.dropWhile isWsChar)))

/-- Fuel-driven worker for the global tokenisation
`whereClause.match(/\w+\.\w+|\w+/g)`: maximal word runs, with a `word.word`
pair (preferred alternative) fused into one token.  Every step strictly
shortens the list, so any fuel above the list length is enough; the fuel
only makes the recursion structural. -/
def tokenizeFieldsAux : Nat → List Char → List String
  | 0, _ => []
  | _, [] => []
  | fuel + 1, c :: s =>
    if wordChar c then
      let run := (c :: s).takeWhile wordChar
      match (c :: s).dropWhile wordChar with
      | '.' :: r2 =>
        if (r2.head?.map wordChar).getD false then
          String.mk (run ++ '.' :: r2.takeWhile wordChar) ::
            tokenizeFieldsAux fuel (r2.dropWhile wordChar)
        else
          String.mk run :: tokenizeFieldsAux fuel ('.' :: r2)
      | rest => String.mk run :: tokenizeFieldsAux fuel rest
    else tokenizeFieldsAux fuel s

/-- JavaScript `whereClause.match(/\w+\.\w+|\w+/g) || []`. -/
def tokenizeFields (s : List Char) : List String := tokenizeFieldsAux (s.length + 1) s

/-- An optimizer suggestion `{type, severity, message, fix}`. -/
structure Suggestion where
  type : String
  severity : String
  message : String
  fix : String
deriving Repr, DecidableEq

/-- A field-metadata entry (name, label, declared type, indexed flag). -/
structure FieldMeta where
  name : String
  label : String
  ftype : String
  indexed : Bool
deriving Repr, DecidableEq

/-- An object-metadata entry (name, label). -/
structure ObjMeta where
  name : String
  label : String
deriving Repr, DecidableEq

/-- Suggestion pushed by the `SELECT *` check. -/
def selectStarSuggestion : Suggestion :=
  ⟨"performance", "warning", "Specify only needed fields instead of SELECT *",
   "Select specific fields"⟩

/-- Suggestion pushed by the missing-WHERE/LIMIT check. -/
def tooManyRecordsSuggestion : Suggestion :=
  ⟨"performance", "warning", "Query might return too many records",
   "Add WHERE clause or LIMIT"⟩

/-- Suggestion pushed per unindexed field found in the WHERE clause. -/
def notIndexedSuggestion (f : String) : Suggestion :=
  ⟨"performance", "info", "Field \"" ++ f ++ "\" is not indexed",
   "Consider using indexed fields in filters"⟩

/-- Suggestion pushed by the ORDER-BY-without-LIMIT check. -/
def orderByNoLimitSuggestion : Suggestion :=
  ⟨"performance", "info", "ORDER BY without LIMIT might be slow",
   "Add LIMIT clause"⟩

/-- Check (1) of `analyzeQuery`: flag `SELECT *` (case-insensitive). -/
def selectStarCheck (q : String) : List Suggestion :=
  if testSelectStar q then [selectStarSuggestion] else []

/-- Check (2) of `analyzeQuery`: flag absence of both `WHERE` and `LIMIT`. -/
def missingFilterCheck (q : String) : List Suggestion :=
  if !matchCI q "WHERE" && !matchCI q "LIMIT" then [tooManyRecordsSuggestion] else []

/-- Check (3) of `analyzeQuery`: one info suggestion per WHERE-clause token
found in the field metadata with `indexed == false`. -/
def unindexedFieldCheck (q : String) (fieldMetadata : Option (List FieldMeta)) :
    List Suggestion :=
  match whereClauseMatch q with
  | some wc =>
    match fieldMetadata with
    | some fm =>
      (tokenizeFields wc.data).filterMap (fun f =>
        match fm.find? (fun x => x.name == f) with
        | some info => if info.indexed then none else some (notIndexedSuggestion f)
        | none => none)
    | none => []
  | none => []

/-- Check (4) of `analyzeQuery`: flag `ORDER BY` without `LIMIT`. -/
def orderByNoLimitCheck (q : String) : List Suggestion :=
  if matchCI q "ORDER BY" && !matchCI q "LIMIT" then [orderByNoLimitSuggestion] else []

/-- QueryOptimizer.analyzeQuery (src/unnamed/part_000 lines 192-247):
sequentially pushes the suggestions of the four checks into one array.
The `objectMetadata` parameter is never read by the source function. -/
def analyzeQuery {α : Type} (q : String) (objectMetadata : α)
    (fieldMetadata : Option (List FieldMeta)) : List Suggestion :=
  let suggestions : List Suggestion := []
  let suggestions := if testSelectStar q then
    suggestions ++ [selectStarSuggestion] else suggestions
  let suggestions := if !matchCI q "WHERE" && !matchCI q "LIMIT" then
    suggestions ++ [tooManyRecordsSuggestion] else suggestions
  let suggestions := suggestions ++
    (match whereClauseMatch q with
     | some wc =>
       match fieldMetadata with
       | some fm =>
         (tokenizeFields wc.data).filterMap (fun f =>
           match fm.find? (fun x => x.name == f) with
           | some info => if info.indexed then none else some (notIndexedSuggestion f)
           | none => none)
       | none => []
     | none => [])
  let suggestions := if matchCI q "ORDER BY" && !matchCI q "LIMIT" then
    suggestions ++ [orderByNoLimitSuggestion] else suggestions
  suggestions

/-- Leftmost match of `/FROM\s+(\w+)/i`, returning the captured word.  The
greedy `\s+` is forced maximal (a word character is not whitespace); a
position where no word character follows the whitespace run cannot start a
match, so the scan continues. -/
def findFromCapture : List Char → Option (List Char)
  | [] => none
  | c :: s =>
    match ciPrefixRest "FROM".data (c :: s) with
    | some r =>
      if (r.head?.map isWsChar).getD false then
        let t := r.dropWhile isWsChar
        if (t.head?.map wordChar).getD false then some (t.takeWhile wordChar)
        else findFromCapture s
      else findFromCapture s
    | none => findFromCapture s

/-- Whether the tail `\s+FROM` of the SELECT-clause regex matches at the
front of the given suffix. -/
def selectTailHit (t : List Char) : Bool :=
  match t with
  | [] => false
  | c :: r =>
    isWsChar c && (ciPrefixRest "FROM".data (List.dropWhile isWsChar (c :: r))).isSome

/-- The lazy capture of `/SELECT\s+(.*?)\s+FROM/i`: shortest prefix whose
complement starts with `\s+FROM`, if any. -/
def captureMin : List Char → Option (List Char)
  | [] => none
  | c :: s => if selectTailHit (c :: s) then some [] else (captureMin s).map (c :: ·)

/-- Backtracking of the greedy `\s+` after `SELECT`: try the whitespace-run
lengths `m, m-1, ..., 1` and return the first lazy capture that succeeds. -/
def selectTryM : Nat → List Char → Option (List Char)
  | 0, _ => none
  | m + 1, r =>
    match captureMin (r.drop (m + 1)) with
    | some cap => some cap
    | none => selectTryM m r

/-- Leftmost match of `/SELECT\s+(.*?)\s+FROM/i`, returning the capture. -/
def findSelectCapture : List Char → Option (List Char)
  | [] => none
  | c :: s =>
    match ciPrefixRest "SELECT".data (c :: s) with
    | some r =>
      match selectTryM (r.takeWhile isWsChar).length r with
      | some cap => some cap
      | none => findSelectCapture s
    | none => findSelectCapture s

/-- JavaScript-style `trim` (ASCII whitespace model). -/
def jsTrim (s : String) : String :=
  ⟨((s.data.dropWhile isWsChar).reverse.dropWhile isWsChar).reverse⟩

/-- JavaScript `s.split(',')`. -/
def splitCommaAux (cur : List Char) : List Char → List String
  | [] => [String.mk cur.reverse]
  | c :: s =>
    if c = ',' then String.mk cur.reverse :: splitCommaAux [] s
    else splitCommaAux (c :: cur) s

/-- JavaScript `s.split(',')` on a string. -/
def splitComma (s : String) : List String := splitCommaAux [] s.data

/-- Number of occurrences of a character in a string (models
`(s.match(/\(/g) || []).length`). -/
def countChar (s : String) (c : Char) : Nat := s.data.count c

/-- The errors pushed for one trimmed field name of the SELECT list. -/
def fieldErrors (fieldMetadata : Option (List FieldMeta)) (f : String) : List String :=
  if f = "*" then ["Wildcard (*) selections are not supported"]
  else if f = "Id" then []
  else match fieldMetadata with
    | some fm =>
      if (fm.find? (fun x => x.name == f)).isSome then []
      else ["Field \"" ++ f ++ "\" not found"]
    | none => ["Field \"" ++ f ++ "\" not found"]

/-- QueryValidator.validateQuery (src/unnamed/part_000 lines 1081-1122):
fail-fast SELECT/FROM guard, then object check, field checks and
parenthesis balance check, pushed into one error array.
`fieldMetadata?.find` in the source tolerates an absent field-metadata
array, hence the `Option`. -/
def validateQuery (q : String) (objectMetadata : List ObjMeta)
    (fieldMetadata : Option (List FieldMeta)) : List String :=
  if !jsIncludes q "SELECT" || !jsIncludes q "FROM" then
    ["Query must include SELECT and FROM clauses"]
  else
    let errors : List String := []
    let errors := errors ++
      (match findFromCapture q.data with
       | some objName =>
         let name := String.mk objName
         if (objectMetadata.find? (fun o => o.name == name)).isSome then []
         else ["Object \"" ++ name ++ "\" not found"]
       | none => [])
    let errors := errors ++
      (match findSelectCapture q.data with
       | some cap =>
         let fields := (splitComma (String.mk cap)).map jsTrim
         fields.foldl (fun acc f => acc ++ fieldErrors fieldMetadata f) []
       | none => [])
    let errors := errors ++
      (match whereClauseMatch q with
       | some wc =>
         if countChar wc '(' ≠ countChar wc ')' then
           ["Unmatched parentheses in WHERE clause"]
         else []
       | none => [])
    errors

/-! ## Persistence stores (SavedQueries, QueryHistory)

`localStorage` and `JSON.parse`/`JSON.stringify` are external collaborators.
`getAll` runs `try { return JSON.parse(localStorage.getItem(key)) || [] }
catch { return [] }`; the parse call either throws (malformed JSON),
produces a falsy value (`null` — also the result of parsing the `null`
returned by `getItem` for an absent key, which coerces to the string
"null"), or produces an array. -/

/-- Outcome of the external `JSON.parse(localStorage.getItem(key))` call. -/
inductive ParseOutcome (α : Type) where
  | thrown : ParseOutcome α
  | nullish : ParseOutcome α
  | arr : List α → ParseOutcome α
deriving Repr, DecidableEq

/-- SavedQueries.getAll (src/unnamed/part_000 lines 145-151): the `catch`
turns a throw into `[]`; `null || []` turns a falsy parse into `[]`;
an array (truthy in JavaScript, even when empty) is returned as-is. -/
def SavedQueries.getAll {α : Type} : ParseOutcome α → List α
  | .thrown => []
  | .nullish => []
  | .arr l => l

/-- QueryHistory.getAll (src/unnamed/part_000 lines 179-185): identical
body to `SavedQueries.getAll`. -/
def QueryHistory.getAll {α : Type} : ParseOutcome α → List α
  | .thrown => []
  | .nullish => []
  | .arr l => l

/-- QueryHistory.add (src/unnamed/part_000 lines 165-177) at the list
level: `unshift` the new entry, `pop` the last (oldest) entry when the
length exceeds `maxSize`, store the result.  The JSON round-trip through
`localStorage` between consecutive `add` calls is the identity on the
stored list. -/
def QueryHistory.add {α : Type} (maxSize : Nat) (entry : α) (history : List α) : List α :=
  let h := entry :: history
  if h.length > maxSize then h.dropLast else h

/-- The stored history after a sequence of `QueryHistory.add` calls
starting from an empty store. -/
def QueryHistory.addAll {α : Type} (maxSize : Nat) (entries : List α) : List α :=
  entries.foldl (fun h e => QueryHistory.add maxSize e h) []

/-! ## UndoManager (src/unnamed/part_000 lines 249-301)

The `JSON.parse(JSON.stringify(state))` deep copies are the identity in the
model.  `history.slice(0, currentIndex + 1)`: every reachable state keeps
`currentIndex ≥ -1`, for which the `Int.toNat` clamp below agrees with the
JavaScript `slice` semantics. -/

/-- The mutable fields of the `UndoManager` class. -/
structure UndoState (α : Type) where
  history : List α
  currentIndex : Int
deriving Repr, DecidableEq

/-- The `UndoManager` constructor state: empty history, index `-1`. -/
def UndoManager.init {α : Type} : UndoState α := ⟨[], -1⟩

/-- UndoManager.pushState (lines 256-271): truncate any redo tail, append
the new state, then either evict the oldest state (`shift`, index not
incremented) or increment the index. -/
def UndoManager.pushState {α : Type} (maxHistory : Nat) (s : UndoState α) (x : α) :
    UndoState α :=
  let hist := if s.currentIndex < (s.history.length : Int) - 1 then
      s.history.take (s.currentIndex + 1).toNat
    else s.history
  let hist := hist ++ [x]
  if hist.length > maxHistory then ⟨hist.drop 1, s.currentIndex⟩
  else ⟨hist, s.currentIndex + 1⟩

/-- UndoManager.canUndo (lines 289-291). -/
def UndoManager.canUndo {α : Type} (s : UndoState α) : Bool :=
  decide (s.currentIndex > 0)

/-- UndoManager.canRedo (lines 293-295). -/
def UndoManager.canRedo {α : Type} (s : UndoState α) : Bool :=
  decide (s.currentIndex < (s.history.length : Int) - 1)

/-- State effect of UndoManager.undo (lines 273-279). -/
def UndoManager.undo {α : Type} (s : UndoState α) : UndoState α :=
  if UndoManager.canUndo s then { s with currentIndex := s.currentIndex - 1 } else s

/-- State effect of UndoManager.redo (lines 281-287). -/
def UndoManager.redo {α : Type} (s : UndoState α) : UndoState α :=
  if UndoManager.canRedo s then { s with currentIndex := s.currentIndex + 1 } else s

/-- UndoManager.clear (lines 297-300). -/
def UndoManager.clear {α : Type} (_ : UndoState α) : UndoState α := ⟨[], -1⟩

/-- One user-visible operation on the undo manager. -/
inductive UndoOp (α : Type) where
  | push : α → UndoOp α
  | undo : UndoOp α
  | redo : UndoOp α
  | clear : UndoOp α

/-- Apply one operation to an undo-manager state. -/
def UndoManager.applyOp {α : Type} (maxHistory : Nat) (s : UndoState α) :
    UndoOp α → UndoState α
  | .push x => UndoManager.pushState maxHistory s x
  | .undo => UndoManager.undo s
  | .redo => UndoManager.redo s
  | .clear => UndoManager.clear s

/-- The state after a sequence of operations from the initial state. -/
def UndoManager.run {α : Type} (maxHistory : Nat) (ops : List (UndoOp α)) : UndoState α :=
  ops.foldl (UndoManager.applyOp maxHistory) UndoManager.init

/-- The UndoManager invariant of claim C10. -/
def UndoManager.Inv {α : Type} (maxHistory : Nat) (s : UndoState α) : Prop :=
  -1 ≤ s.currentIndex ∧ s.currentIndex ≤ (s.history.length : Int) - 1 ∧
    s.history.length ≤ maxHistory

/-! ## Helper lemmas: occurrence counting and substring machinery -/

theorem isPrefix_append_cons_mp :
    ∀ {p : List Char} {c : Char}, c ∉ p → ∀ (x b : List Char), p <+: (x ++ c :: b) → p <+: x := by
  intro p
  induction p with
  | nil => intro c _ x b _; exact List.nil_prefix
  | cons q p ih =>
    intro c hc x b h
    cases x with
    | nil =>
      rcases List.cons_prefix_cons.mp h with ⟨rfl, -⟩
      exact absurd (List.mem_cons_self _ _) hc
    | cons y x =>
      rcases List.cons_prefix_cons.mp h with ⟨rfl, h2⟩
      exact List.cons_prefix_cons.mpr
        ⟨rfl, ih (fun hm => hc (List.mem_cons_of_mem _ hm)) x b h2⟩

theorem isPrefix_append_cons {p : List Char} {c : Char} (hc : c ∉ p) (x b : List Char) :
    p <+: (x ++ c :: b) ↔ p <+: x :=
  ⟨isPrefix_append_cons_mp hc x b, fun h => h.trans (List.prefix_append x (c :: b))⟩

theorem countOccs_cons_of_not_mem {p : List Char} {c : Char} (hc : c ∉ p) (hp : p ≠ [])
    (t : List Char) : countOccs p (c :: t) = countOccs p t := by
  have hb : p.isPrefixOf (c :: t) = false := by
    rw [Bool.eq_false_iff]
    intro hT
    have hpre := List.isPrefixOf_iff_prefix.mp hT
    cases p with
    | nil => exact hp rfl
    | cons q p =>
      rcases List.cons_prefix_cons.mp hpre with ⟨rfl, -⟩
      exact hc (List.mem_cons_self _ _)
  simp [countOccs, hb]

theorem countOccs_append_cons {p : List Char} {c : Char} (hc : c ∉ p) (hp : p ≠ [])
    (x b : List Char) : countOccs p (x ++ c :: b) = countOccs p x + countOccs p (c :: b) := by
  induction x with
  | nil => simp [countOccs]
  | cons y x ih =>
    have hpre : p.isPrefixOf (y :: (x ++ c :: b)) = p.isPrefixOf (y :: x) := by
      by_cases hb : p <+: y :: x
      · have h1 : p.isPrefixOf (y :: x) = true := List.isPrefixOf_iff_prefix.mpr hb
        have h2 : p.isPrefixOf (y :: (x ++ c :: b)) = true :=
          List.isPrefixOf_iff_prefix.mpr ((isPrefix_append_cons hc (y :: x) b).mpr hb)
        rw [h1, h2]
      · have h1 : p.isPrefixOf (y :: x) = false :=
          Bool.eq_false_iff.mpr (fun hT => hb (List.isPrefixOf_iff_prefix.mp hT))
        have h2 : p.isPrefixOf (y :: (x ++ c :: b)) = false :=
          Bool.eq_false_iff.mpr (fun hT =>
            hb ((isPrefix_append_cons hc (y :: x) b).mp (List.isPrefixOf_iff_prefix.mp hT)))
        rw [h1, h2]
    show (if p.isPrefixOf (y :: (x ++ c :: b)) then 1 else 0) + countOccs p (x ++ c :: b)
        = ((if p.isPrefixOf (y :: x) then 1 else 0) + countOccs p x) + countOccs p (c :: b)
    rw [hpre, ih]
    omega

theorem countOccs_of_short {p s : List Char} (h : s.length < p.length) : countOccs p s = 0 := by
  induction s with
  | nil => rfl
  | cons c t ih =>
    have hb : p.isPrefixOf (c :: t) = false := by
      rw [Bool.eq_false_iff]
      intro hT
      have := (List.isPrefixOf_iff_prefix.mp hT).length_le
      simp at this h
      omega
    have ht : t.length < p.length := by simp at h; omega
    simp [countOccs, hb, ih ht]

theorem countOccs_self {p : List Char} (hp : p ≠ []) : countOccs p p = 1 := by
  cases p with
  | nil => exact absurd rfl hp
  | cons q t =>
    have h1 : (q :: t).isPrefixOf (q :: t) = true :=
      List.isPrefixOf_iff_prefix.mpr (List.prefix_refl _)
    have h2 : countOccs (q :: t) t = 0 := countOccs_of_short (by simp)
    simp [countOccs, h1, h2]

theorem infix_iff_countOccs {p : List Char} (hp : p ≠ []) (s : List Char) :
    p <:+: s ↔ countOccs p s ≠ 0 := by
  induction s with
  | nil =>
    simp only [ List.infix_nil, countOccs]
    simp [hp]
  | cons c t ih =>
    rw [ List.infix_cons_iff]
    constructor
    · rintro (hpre | hinf)
      · simp [countOccs, List.isPrefixOf_iff_prefix.mpr hpre]
      · have := ih.mp hinf
        simp only [countOccs]
        omega
    · intro h0
      by_cases hpre : p <+: c :: t
      · exact Or.inl hpre
      · refine Or.inr (ih.mpr ?_)
        have hb : p.isPrefixOf (c :: t) = false :=
          Bool.eq_false_iff.mpr (fun hT => hpre (List.isPrefixOf_iff_prefix.mp hT))
        simp [countOccs, hb] at h0
        exact h0

theorem infix_append_cons {p : List Char} {c : Char} (hc : c ∉ p) (hp : p ≠ [])
    (x b : List Char) : p <:+: (x ++ c :: b) ↔ p <:+: x ∨ p <:+: b := by
  rw [infix_iff_countOccs hp, infix_iff_countOccs hp, infix_iff_countOccs hp,
    countOccs_append_cons hc hp, countOccs_cons_of_not_mem hc hp]
  omega

theorem notInfix_append_cons {p : List Char} {c : Char} (hc : c ∉ p) (hp : p ≠ [])
    {x b : List Char} (hx : ¬ p <:+: x) (hb : ¬ p <:+: b) : ¬ p <:+: (x ++ c :: b) := by
  rw [infix_append_cons hc hp]
  tauto

theorem scanAny_isPrefixOf_iff (p : List Char) :
    ∀ l, scanAny (fun t => p.isPrefixOf t) l = true ↔ p <:+: l := by
  intro l
  induction l with
  | nil =>
    simp [scanAny, List.isPrefixOf_iff_prefix, List.infix_nil, List.prefix_nil]
  | cons c t ih =>
    simp only [scanAny, Bool.or_eq_true, ih, List.isPrefixOf_iff_prefix,
      List.infix_cons_iff]

theorem jsIncludes_true_iff (s pat : String) :
    jsIncludes s pat = true ↔ pat.data <:+: s.data :=
  scanAny_isPrefixOf_iff pat.data s.data

/-! ## Counting operator occurrences in joined clause strings -/

theorem countOccs_joinWith (op : String) (h1 : (' ' : Char) ∉ op.data) (hop : op.data ≠ []) :
    ∀ (l : List String), l ≠ [] →
      countOccs op.data (joinWith (" " ++ op ++ " ") l).data
        = (l.map (fun x => countOccs op.data x.data)).sum + (l.length - 1) := by
  intro l
  induction l with
  | nil => intro h; exact absurd rfl h
  | cons x t ih =>
    intro _
    cases t with
    | nil => simp [joinWith]
    | cons y t2 =>
      have e : (joinWith (" " ++ op ++ " ") (x :: y :: t2)).data
          = x.data ++ ' ' :: (op.data ++ ' ' :: (joinWith (" " ++ op ++ " ") (y :: t2)).data) := by
        show ((x ++ (" " ++ op ++ " ")) ++ joinWith (" " ++ op ++ " ") (y :: t2)).data = _
        have hsep : (" " ++ op ++ " ").data = ' ' :: (op.data ++ [' ']) := by
          simp [String.data_append]
        simp [String.data_append, hsep, List.append_assoc]
      rw [e, countOccs_append_cons h1 hop, countOccs_cons_of_not_mem h1 hop,
        countOccs_append_cons h1 hop, countOccs_cons_of_not_mem h1 hop,
        countOccs_self hop, ih (by simp)]
      simp only [List.map_cons, List.sum_cons, List.length_cons]
      omega

theorem countOccs_groupString {op : String} (h1 : (' ' : Char) ∉ op.data)
    (h2 : ('(' : Char) ∉ op.data) (h3 : (')' : Char) ∉ op.data) (hop : op.data ≠ [])
    (g : List Condition) (hg : g ≠ [])
    (hclean : ∀ c ∈ g, ¬ op.data <:+: (renderCondition c).data) :
    countOccs op.data (groupString op g).data = g.length - 1 := by
  have hzero : ∀ c ∈ g, countOccs op.data (renderCondition c).data = 0 := by
    intro c hcm
    have hni := hclean c hcm
    rw [infix_iff_countOccs hop] at hni
    omega
  cases g with
  | nil => exact absurd rfl hg
  | cons c0 t =>
    cases t with
    | nil =>
      have e : groupString op [c0] = renderCondition c0 := by
        simp [groupString, joinWith]
      rw [e]
      simpa using hzero c0 (by simp)
    | cons c1 t2 =>
      have e1 : groupString op (c0 :: c1 :: t2)
          = "(" ++ joinWith (" " ++ op ++ " ") ((c0 :: c1 :: t2).map renderCondition) ++ ")" := by
        simp [groupString]
      have e2 : ("(" ++ joinWith (" " ++ op ++ " ") ((c0 :: c1 :: t2).map renderCondition) ++ ")").data
          = '(' :: ((joinWith (" " ++ op ++ " ") ((c0 :: c1 :: t2).map renderCondition)).data
              ++ ')' :: []) := by
        simp [String.data_append]
      rw [e1, e2, countOccs_cons_of_not_mem h2 hop, countOccs_append_cons h3 hop,
        countOccs_cons_of_not_mem h3 hop, countOccs_joinWith op h1 hop _ (by simp)]
      have hsum : (((c0 :: c1 :: t2).map renderCondition).map
          (fun x => countOccs op.data x.data)).sum = 0 := by
        apply List.sum_eq_zero
        intro n hn
        rcases List.mem_map.mp hn with ⟨x, hx, rfl⟩
        rcases List.mem_map.mp hx with ⟨c, hcm, rfl⟩
        exact hzero c hcm
      rw [hsum]
      simp [countOccs]

/-! ## Group bookkeeping of the WHERE-clause `reduce` -/

theorem mem_groupKeys_aux :
    ∀ (conds : List Condition) (init : List String) (k : String),
      k ∈ conds.foldl (fun ks c =>
          let k' := effectiveGroupId c
          if k' ∈ ks then ks else ks ++ [k']) init
        ↔ k ∈ init ∨ ∃ c ∈ conds, effectiveGroupId c = k := by
  intro conds
  induction conds with
  | nil => simp
  | cons c t ih =>
    intro init k
    simp only [List.foldl_cons]
    rw [ih]
    by_cases h : effectiveGroupId c ∈ init
    · simp only [h, if_true]
      constructor
      · rintro (hk | hex)
        · exact Or.inl hk
        · rcases hex with ⟨c', hc', rfl⟩
          exact Or.inr ⟨c', List.mem_cons_of_mem _ hc', rfl⟩
      · rintro (hk | hex)
        · exact Or.inl hk
        · rcases hex with ⟨c', hc', rfl⟩
          rcases List.mem_cons.mp hc' with rfl | hm
          · exact Or.inl h
          · exact Or.inr ⟨c', hm, rfl⟩
    · simp only [h, if_false]
      constructor
      · rintro (hk | hex)
        · rcases List.mem_append.mp hk with hk | hk
          · exact Or.inl hk
          · rcases List.mem_singleton.mp hk with rfl
            exact Or.inr ⟨c, List.mem_cons_self _ _, rfl⟩
        · rcases hex with ⟨c', hc', rfl⟩
          exact Or.inr ⟨c', List.mem_cons_of_mem _ hc', rfl⟩
      · rintro (hk | hex)
        · exact Or.inl (List.mem_append.mpr (Or.inl hk))
        · rcases hex with ⟨c', hc', rfl⟩
          rcases List.mem_cons.mp hc' with rfl | hm
          · exact Or.inl (List.mem_append.mpr (Or.inr (List.mem_singleton.mpr rfl)))
          · exact Or.inr ⟨c', hm, rfl⟩

theorem mem_groupKeys (conds : List Condition) (k : String) :
    k ∈ groupKeys conds ↔ ∃ c ∈ conds, effectiveGroupId c = k := by
  unfold groupKeys
  rw [mem_groupKeys_aux]
  simp

theorem groupConds_ne_nil {conds : List Condition} {k : String} (h : k ∈ groupKeys conds) :
    groupConds conds k ≠ [] := by
  rcases (mem_groupKeys conds k).mp h with ⟨c, hc, hk⟩
  intro hnil
  have hmem : c ∈ groupConds conds k := by
    unfold groupConds
    exact List.mem_filter.mpr ⟨hc, by simp [hk]⟩
  rw [hnil] at hmem
  exact absurd hmem (List.not_mem_nil c)

theorem groupKeys_ne_nil {conds : List Condition} (h : conds ≠ []) : groupKeys conds ≠ [] := by
  cases conds with
  | nil => exact absurd rfl h
  | cons c t =>
    have hmem : effectiveGroupId c ∈ groupKeys (c :: t) :=
      (mem_groupKeys _ _).mpr ⟨c, List.mem_cons_self _ _, rfl⟩
    intro hnil
    rw [hnil] at hmem
    exact absurd hmem (List.not_mem_nil _)

theorem mem_of_mem_groupConds {conds : List Condition} {k : String} {c : Condition}
    (hc : c ∈ groupConds conds k) : c ∈ conds :=
  List.mem_of_mem_filter hc

/-! ## Claim theorems -/

/-- C1: for every builder state with at least one condition whose group
operator is the documented `AND`/`OR` and whose rendered conditions do not
themselves contain the operator token (so that every occurrence of the
token in the WHERE clause is a top-level joiner), the number of occurrences
of the boolean operator in the WHERE clause built by `buildQuery` (grouping
by `groupId` with the implicit `default` group, joining within and across
groups with the single global `groupOperator`, parenthesising only
multi-condition groups) equals (number of groups − 1) plus the sum over
groups of (conditions in the group − 1). -/
theorem claim1_whereClause_operator_count (st : BuilderState)
    (hconds : st.conditions ≠ [])
    (hop : st.groupOperator = "AND" ∨ st.groupOperator = "OR")
    (hclean : ∀ c ∈ st.conditions, jsIncludes (renderCondition c) st.groupOperator = false) :
    countOccs st.groupOperator.data (whereClause st).data
      = ((groupKeys st.conditions).length - 1)
        + ((groupKeys st.conditions).map
            (fun k => (groupConds st.conditions k).length - 1)).sum := by
  have h1 : (' ' : Char) ∉ st.groupOperator.data := by
    rcases hop with h | h <;> rw [h] <;> decide
  have h2 : ('(' : Char) ∉ st.groupOperator.data := by
    rcases hop with h | h <;> rw [h] <;> decide
  have h3 : (')' : Char) ∉ st.groupOperator.data := by
    rcases hop with h | h <;> rw [h] <;> decide
  have hopne : st.groupOperator.data ≠ [] := by
    rcases hop with h | h <;> rw [h] <;> decide
  have hcl : ∀ c ∈ st.conditions, ¬ st.groupOperator.data <:+: (renderCondition c).data := by
    intro c hc hinf
    have ht := (jsIncludes_true_iff (renderCondition c) st.groupOperator).mpr hinf
    rw [hclean c hc] at ht
    exact Bool.false_ne_true ht
  have hne : (groupKeys st.conditions).map
      (fun k => groupString st.groupOperator (groupConds st.conditions k)) ≠ [] := by
    have hkeys := groupKeys_ne_nil hconds
    intro h
    apply hkeys
    cases hg : groupKeys st.conditions with
    | nil => rfl
    | cons a t => rw [hg] at h; simp at h
  unfold whereClause
  rw [countOccs_joinWith _ h1 hopne _ hne, List.map_map]
  have hcong : (groupKeys st.conditions).map
        ((fun x => countOccs st.groupOperator.data x.data) ∘
          fun k => groupString st.groupOperator (groupConds st.conditions k))
      = (groupKeys st.conditions).map (fun k => (groupConds st.conditions k).length - 1) := by
    apply List.map_congr_left
    intro k hk
    exact countOccs_groupString h1 h2 h3 hopne _ (groupConds_ne_nil hk)
      (fun c hc => hcl c (mem_of_mem_groupConds hc))
  rw [hcong, List.length_map]
  omega

/-- C1 witness: a concrete builder state with two groups (an explicit group
of two conditions and the implicit default group) has 1 + (1 + 0) = 2
operator occurrences in its WHERE clause. -/
theorem claim1_witness :
    countOccs ("AND" : String).data
        (whereClause ⟨[⟨"A", "=", "1", "number", some "g1"⟩,
          ⟨"B", "=", "2", "number", some "g1"⟩,
          ⟨"C", "=", "3", "number", none⟩], none, [], [], none, "AND"⟩).data
      = ((groupKeys [⟨"A", "=", "1", "number", some "g1"⟩,
          ⟨"B", "=", "2", "number", some "g1"⟩,
          ⟨"C", "=", "3", "number", none⟩]).length - 1)
        + ((groupKeys [⟨"A", "=", "1", "number", some "g1"⟩,
            ⟨"B", "=", "2", "number", some "g1"⟩,
            ⟨"C", "=", "3", "number", none⟩]).map
            (fun k => (groupConds [⟨"A", "=", "1", "number", some "g1"⟩,
              ⟨"B", "=", "2", "number", some "g1"⟩,
              ⟨"C", "=", "3", "number", none⟩] k).length - 1)).sum :=
  claim1_whereClause_operator_count
    ⟨[⟨"A", "=", "1", "number", some "g1"⟩, ⟨"B", "=", "2", "number", some "g1"⟩,
      ⟨"C", "=", "3", "number", none⟩], none, [], [], none, "AND"⟩
    (by decide) (Or.inl rfl) (by decide)

/-- C2: `formatValue` single-quotes and backslash-escapes string-like and
unrecognized types, passes `boolean`/`number`/`currency`/`percent` through
verbatim, quotes `date` unless the value already contains a quote, passes
`datetime` through unchanged, and maps `O'Brien` (string) to `'O\'Brien'`
and `42` (number) to `42`. -/
theorem claim2_formatValue_types (v t : String)
    (ht : t ∉ (["string", "textarea", "url", "email", "phone", "boolean", "date",
      "datetime", "number", "currency", "percent"] : List String)) :
    (formatValue v "string" = "'" ++ escapeQuotes v ++ "'"
      ∧ formatValue v "textarea" = "'" ++ escapeQuotes v ++ "'"
      ∧ formatValue v "url" = "'" ++ escapeQuotes v ++ "'"
      ∧ formatValue v "email" = "'" ++ escapeQuotes v ++ "'"
      ∧ formatValue v "phone" = "'" ++ escapeQuotes v ++ "'")
    ∧ (formatValue v "boolean" = v ∧ formatValue v "number" = v
      ∧ formatValue v "currency" = v ∧ formatValue v "percent" = v)
    ∧ formatValue v "date" = (if jsIncludes v "'" then v else "'" ++ v ++ "'")
    ∧ formatValue v "datetime" = v
    ∧ formatValue v t = "'" ++ escapeQuotes v ++ "'"
    ∧ formatValue "O'Brien" "string" = "'O\\'Brien'"
    ∧ formatValue "42" "number" = "42" := by
  simp only [ List.mem_cons, List.mem_singleton, not_or] at ht
  obtain ⟨n1, n2, n3, n4, n5, n6, n7, n8, n9, n10, n11⟩ := ht
  refine ⟨⟨rfl, rfl, rfl, rfl, rfl⟩, ⟨rfl, rfl, rfl, rfl⟩, rfl, ite_self v, ?_,
    by decide, by decide⟩
  simp [formatValue, n1, n2, n3, n4, n5, n6, n7, n8, n9, n10, n11]

/-- C2 witness: the theorem applied at `v = "a"` and the unrecognized type
`"picklist"`. -/
theorem claim2_witness :
    (formatValue "a" "string" = "'" ++ escapeQuotes "a" ++ "'"
      ∧ formatValue "a" "textarea" = "'" ++ escapeQuotes "a" ++ "'"
      ∧ formatValue "a" "url" = "'" ++ escapeQuotes "a" ++ "'"
      ∧ formatValue "a" "email" = "'" ++ escapeQuotes "a" ++ "'"
      ∧ formatValue "a" "phone" = "'" ++ escapeQuotes "a" ++ "'")
    ∧ (formatValue "a" "boolean" = "a" ∧ formatValue "a" "number" = "a"
      ∧ formatValue "a" "currency" = "a" ∧ formatValue "a" "percent" = "a")
    ∧ formatValue "a" "date" = (if jsIncludes "a" "'" then "a" else "'" ++ "a" ++ "'")
    ∧ formatValue "a" "datetime" = "a"
    ∧ formatValue "a" "picklist" = "'" ++ escapeQuotes "a" ++ "'"
    ∧ formatValue "O'Brien" "string" = "'O\\'Brien'"
    ∧ formatValue "42" "number" = "42" :=
  claim2_formatValue_types "a" "picklist" (by decide)

/-- C7: `buildQuery` appends a LIMIT clause with the stored limit verbatim
exactly when the limit is set and truthy; a limit of `0` is falsy in
JavaScript and yields the same output as no limit at all. -/
theorem whereClause_update_limit (st : BuilderState) (lim : Option Int) :
    whereClause { st with limit := lim } = whereClause st := rfl

theorem claim7_limit_truthy (st : BuilderState) (n : Int) :
    (st.limit = some 0 → buildQuery st = buildQuery { st with limit := none })
      ∧ (st.limit = some n → n ≠ 0 →
          buildQuery st = buildQuery { st with limit := none } ++ " LIMIT " ++ toString n) := by
  constructor
  · intro h
    simp [buildQuery, h, whereClause_update_limit]
  · intro h hn
    simp [buildQuery, h, hn, whereClause_update_limit]

theorem ne_of_data_head {a b : String} (h : a.data.head? ≠ b.data.head?) : a ≠ b :=
  fun e => h (congrArg (fun s => s.data.head?) e)

theorem objErr_ne_guardErr (s : String) :
    ("Object \"" ++ s ++ "\" not found") ≠ "Query must include SELECT and FROM clauses" := by
  apply ne_of_data_head
  rw [show ("Object \"" ++ s ++ "\" not found").data.head? = some 'O' from rfl]
  decide

theorem fieldErr_ne_guardErr (s : String) :
    ("Field \"" ++ s ++ "\" not found") ≠ "Query must include SELECT and FROM clauses" := by
  apply ne_of_data_head
  rw [show ("Field \"" ++ s ++ "\" not found").data.head? = some 'F' from rfl]
  decide

theorem mem_foldl_append {β : Type} (g : β → List String) :
    ∀ (l : List β) (acc : List String) (e : String),
      e ∈ l.foldl (fun acc f => acc ++ g f) acc → e ∈ acc ∨ ∃ f ∈ l, e ∈ g f := by
  intro l
  induction l with
  | nil => intro acc e h; exact Or.inl h
  | cons x t ih =>
    intro acc e h
    simp only [List.foldl_cons] at h
    rcases ih _ _ h with hacc | ⟨f, hf, hg⟩
    · rcases List.mem_append.mp hacc with hm | hm
      · exact Or.inl hm
      · exact Or.inr ⟨x, List.mem_cons_self _ _, hm⟩
    · exact Or.inr ⟨f, List.mem_cons_of_mem _ hf, hg⟩

theorem fieldErrors_shape {fm : Option (List FieldMeta)} {f e : String}
    (h : e ∈ fieldErrors fm f) :
    e = "Wildcard (*) selections are not supported"
      ∨ ∃ s, e = "Field \"" ++ s ++ "\" not found" := by
  unfold fieldErrors at h
  split at h
  · exact Or.inl (List.mem_singleton.mp h)
  · split at h
    · exact absurd h (List.not_mem_nil e)
    · split at h
      · split at h
        · exact absurd h (List.not_mem_nil e)
        · exact Or.inr ⟨f, List.mem_singleton.mp h⟩
      · exact Or.inr ⟨f, List.mem_singleton.mp h⟩

theorem validateQuery_else_shape (q : String) (objs : List ObjMeta)
    (fm : Option (List FieldMeta)) (h1 : jsIncludes q "SELECT" = true)
    (h2 : jsIncludes q "FROM" = true) (e : String) (he : e ∈ validateQuery q objs fm) :
    (∃ s, e = "Object \"" ++ s ++ "\" not found")
      ∨ e = "Wildcard (*) selections are not supported"
      ∨ (∃ s, e = "Field \"" ++ s ++ "\" not found")
      ∨ e = "Unmatched parentheses in WHERE clause" := by
  unfold validateQuery at he
  rw [h1, h2] at he
  simp only [Bool.not_true, Bool.or_self, Bool.false_eq_true, if_false, List.nil_append] at he
  rcases List.mem_append.mp he with hAB | hC
  · rcases List.mem_append.mp hAB with hA | hB
    · rcases hff : findFromCapture q.data with - | objName
      · rw [hff] at hA
        exact absurd hA (List.not_mem_nil e)
      · rw [hff] at hA
        by_cases hobj : (objs.find? (fun o => o.name == String.mk objName)).isSome = true
        · simp only [hobj, if_true] at hA
          exact absurd hA (List.not_mem_nil e)
        · simp only [Bool.eq_false_iff.mpr hobj, Bool.false_eq_true, if_false] at hA
          exact Or.inl ⟨String.mk objName, List.mem_singleton.mp hA⟩
    · rcases hfs : findSelectCapture q.data with - | cap
      · rw [hfs] at hB
        exact absurd hB (List.not_mem_nil e)
      · rw [hfs] at hB
        rcases mem_foldl_append _ _ _ _ hB with hnil | ⟨f, -, hf⟩
        · exact absurd hnil (List.not_mem_nil e)
        · rcases fieldErrors_shape hf with hw | ⟨s, hs⟩
          · exact Or.inr (Or.inl hw)
          · exact Or.inr (Or.inr (Or.inl ⟨s, hs⟩))
  · rcases hwm : whereClauseMatch q with - | wc
    · rw [hwm] at hC
      exact absurd hC (List.not_mem_nil e)
    · rw [hwm] at hC
      dsimp only at hC
      by_cases hpar : countChar wc '(' ≠ countChar wc ')'
      · rw [if_pos hpar] at hC
        exact Or.inr (Or.inr (Or.inr (List.mem_singleton.mp hC)))
      · rw [if_neg hpar] at hC
        exact absurd hC (List.not_mem_nil e)

/-- C4 counterexample: the query "FROM Account" contains the FROM token, so
it does not lack both tokens, yet validateQuery returns immediately with the
single fail-fast error (the source fires the error when either token is
missing, not only when both are). -/
theorem claim4_counterexample :
    validateQuery "FROM Account" [] (some []) = ["Query must include SELECT and FROM clauses"]
      ∧ jsIncludes "FROM Account" "FROM" = true
      ∧ jsIncludes "FROM Account" "SELECT" = false :=
  ⟨by decide, by decide, by decide⟩

/-- C4 amended: validateQuery returns the single fail-fast error "Query must
include SELECT and FROM clauses" (and runs no other check) exactly when the
query lacks the SELECT token or lacks the FROM token, the membership test
being a case-sensitive exact substring match. -/
theorem claim4_failfast_guard (q : String) (objs : List ObjMeta)
    (fm : Option (List FieldMeta)) :
    validateQuery q objs fm = ["Query must include SELECT and FROM clauses"]
      ↔ (jsIncludes q "SELECT" = false ∨ jsIncludes q "FROM" = false) := by
  constructor
  · intro h
    by_cases g1 : jsIncludes q "SELECT" = true
    · by_cases g2 : jsIncludes q "FROM" = true
      · exfalso
        have hmem : "Query must include SELECT and FROM clauses" ∈ validateQuery q objs fm := by
          rw [h]
          exact List.mem_singleton.mpr rfl
        rcases validateQuery_else_shape q objs fm g1 g2 _ hmem with
          ⟨s, hs⟩ | hw | ⟨s, hs⟩ | hp
        · exact objErr_ne_guardErr s hs.symm
        · exact absurd hw.symm (by decide)
        · exact fieldErr_ne_guardErr s hs.symm
        · exact absurd hp.symm (by decide)
      · exact Or.inr (Bool.eq_false_iff.mpr g2)
    · exact Or.inl (Bool.eq_false_iff.mpr g1)
  · intro h
    rcases h with h | h <;> simp [validateQuery, h]

/-- C6: validating "SELECT Foo FROM Unknown" against object metadata that
has no object named Unknown and an empty field-metadata list yields exactly
the unknown-object error followed by the unknown-field error. -/
theorem claim6_unknown_object_then_field (objs : List ObjMeta)
    (h : ∀ o ∈ objs, o.name ≠ "Unknown") :
    validateQuery "SELECT Foo FROM Unknown" objs (some []) =
      ["Object \"Unknown\" not found", "Field \"Foo\" not found"] := by
  have hf : objs.find? (fun o => o.name == "Unknown") = none := by
    rw [ List.find?_eq_none]
    intro o ho
    simp [h o ho]
  have e : validateQuery "SELECT Foo FROM Unknown" objs (some []) =
      ((if (objs.find? (fun o => o.name == "Unknown")).isSome then []
        else ["Object \"Unknown\" not found"]) ++ ["Field \"Foo\" not found"]) ++ [] := rfl
  rw [e, hf]
  simp

/-- C6 witness: the theorem applied to the empty object-metadata list. -/
theorem claim6_witness :
    validateQuery "SELECT Foo FROM Unknown" [] (some []) =
      ["Object \"Unknown\" not found", "Field \"Foo\" not found"] :=
  claim6_unknown_object_then_field [] (by simp)

/-- C7 witness: limit 0 produces no LIMIT clause; limit 5 appends one. -/
theorem claim7_witness :
    (buildQuery ⟨[], some "Account", [], [], some 0, "AND"⟩
        = buildQuery ⟨[], some "Account", [], [], none, "AND"⟩)
      ∧ buildQuery ⟨[], some "Account", [], [], some 5, "AND"⟩
        = buildQuery ⟨[], some "Account", [], [], none, "AND"⟩ ++ " LIMIT " ++ toString (5 : Int) := by
  constructor
  · exact (claim7_limit_truthy ⟨[], some "Account", [], [], some 0, "AND"⟩ 0).1 rfl
  · exact (claim7_limit_truthy ⟨[], some "Account", [], [], some 5, "AND"⟩ 5).2 rfl (by decide)

/-- C5: `analyzeQuery` is the concatenation, in fixed order, of its four
independent checks (`SELECT *`, missing WHERE and LIMIT, unindexed
WHERE-clause fields, ORDER BY without LIMIT), and on
"SELECT * FROM Account" it returns the `SELECT *` warning followed by the
missing-filter warning — exactly one performance/warning suggestion about
`SELECT *` — for every object and field metadata. -/
theorem claim5_analyzeQuery_concat {α : Type} (q : String) (om : α)
    (fm : Option (List FieldMeta)) :
    analyzeQuery q om fm
        = selectStarCheck q ++ missingFilterCheck q ++ unindexedFieldCheck q fm
            ++ orderByNoLimitCheck q
      ∧ analyzeQuery "SELECT * FROM Account" om fm
          = [selectStarSuggestion, tooManyRecordsSuggestion]
      ∧ ((analyzeQuery "SELECT * FROM Account" om fm).filter
            (fun s => s.type == "performance" && s.severity == "warning"
              && s.message == "Specify only needed fields instead of SELECT *")).length
          = 1 := by
  refine ⟨?_, rfl, rfl⟩
  unfold analyzeQuery selectStarCheck missingFilterCheck unindexedFieldCheck
    orderByNoLimitCheck
  cases h1 : testSelectStar q <;>
    cases h2 : (!matchCI q "WHERE" && !matchCI q "LIMIT") <;>
      cases h3 : (matchCI q "ORDER BY" && !matchCI q "LIMIT") <;>
        simp [h1, h2, h3, List.append_assoc]

/-- C8: starting from an empty store, any sequence of `QueryHistory.add`
calls leaves exactly the most-recent-first prefix of the reversed entry
sequence capped at `maxSize` — in particular the stored history never
exceeds `maxSize`, each add prepends, and the oldest entry is dropped on
overflow. -/
theorem claim8_history_bound {α : Type} (maxSize : Nat) (entries : List α) :
    QueryHistory.addAll maxSize entries = entries.reverse.take maxSize
      ∧ (QueryHistory.addAll maxSize entries).length ≤ maxSize := by
  have main : ∀ l : List α, QueryHistory.addAll maxSize l = l.reverse.take maxSize := by
    intro l
    induction l using List.reverseRecOn with
    | nil => simp [QueryHistory.addAll]
    | append_singleton l e ih =>
      have step : QueryHistory.addAll maxSize (l ++ [e])
          = QueryHistory.add maxSize e (QueryHistory.addAll maxSize l) := by
        unfold QueryHistory.addAll
        rw [ List.foldl_append]
        rfl
      rw [step, ih, List.reverse_append]
      simp only [ List.reverse_singleton, List.singleton_append]
      generalize l.reverse = r
      cases maxSize with
      | zero => simp [QueryHistory.add]
      | succ m =>
        by_cases hr : r.length ≤ m
        · have h1 : r.take (m + 1) = r := List.take_of_length_le (by omega)
          have h2 : r.take m = r := List.take_of_length_le hr
          rw [h1]
          unfold QueryHistory.add
          dsimp only
          rw [if_neg (by simp; omega), List.take_succ_cons, h2]
        · have hlen : (r.take (m + 1)).length = m + 1 := by
            rw [ List.length_take]
            omega
          have hc : (e :: r.take (m + 1)).length > m + 1 := by simp [hlen]
          have hdrop : (e :: r.take (m + 1)).dropLast = e :: r.take m := by
            rw [ List.dropLast_eq_take]
            simp only [ List.length_cons, hlen, Nat.add_sub_cancel]
            rw [ List.take_succ_cons, List.take_take]
            simp [Nat.min_def]
          unfold QueryHistory.add
          dsimp only
          rw [if_pos hc, hdrop, List.take_succ_cons]
  refine ⟨main entries, ?_⟩
  rw [main entries]
  simp [ List.length_take]

/-- C9: for a stored string that is not valid JSON the `try/catch` in
`SavedQueries.getAll` and `QueryHistory.getAll` swallows the parse failure
and returns the empty list, and for an absent key (`JSON.parse(null)`
evaluates to the falsy `null`) the `|| []` fallback also returns the empty
list; the unreadable data is silently discarded. -/
theorem claim9_getAll_resilient {α : Type} (r : ParseOutcome α) :
    (r = ParseOutcome.thrown → SavedQueries.getAll r = [] ∧ QueryHistory.getAll r = [])
      ∧ SavedQueries.getAll (ParseOutcome.nullish : ParseOutcome α) = []
      ∧ QueryHistory.getAll (ParseOutcome.nullish : ParseOutcome α) = [] := by
  refine ⟨?_, rfl, rfl⟩
  rintro rfl
  exact ⟨rfl, rfl⟩

/-- C9 witness: the theorem applied to a thrown parse over `Nat` entries. -/
theorem claim9_witness :
    SavedQueries.getAll (ParseOutcome.thrown : ParseOutcome Nat) = []
      ∧ QueryHistory.getAll (ParseOutcome.thrown : ParseOutcome Nat) = [] :=
  (claim9_getAll_resilient (ParseOutcome.thrown : ParseOutcome Nat)).1 rfl

/-! ## UndoManager invariant lemmas -/

theorem undoInv_init {α : Type} (M : Nat) : UndoManager.Inv M (UndoManager.init : UndoState α) := by
  refine ⟨le_refl _, ?_, ?_⟩ <;> simp [UndoManager.init]

theorem undoInv_pushState {α : Type} {M : Nat} {s : UndoState α}
    (hInv : UndoManager.Inv M s) (x : α) : UndoManager.Inv M (UndoManager.pushState M s x) := by
  obtain ⟨h1, h2, h3⟩ := hInv
  unfold UndoManager.pushState
  dsimp only
  have htrunc : (if s.currentIndex < (s.history.length : Int) - 1 then
      s.history.take (s.currentIndex + 1).toNat else s.history).length
      = (s.currentIndex + 1).toNat := by
    by_cases hlt : s.currentIndex < (s.history.length : Int) - 1
    · rw [if_pos hlt, List.length_take]
      omega
    · rw [if_neg hlt]
      omega
  by_cases hcap : ((if s.currentIndex < (s.history.length : Int) - 1 then
      s.history.take (s.currentIndex + 1).toNat else s.history) ++ [x]).length > M
  · rw [if_pos hcap]
    rw [ List.length_append, htrunc, List.length_singleton] at hcap
    refine ⟨h1, ?_, ?_⟩
    · simp only [ List.length_drop, List.length_append, htrunc, List.length_singleton]
      omega
    · simp only [ List.length_drop, List.length_append, htrunc, List.length_singleton]
      omega
  · rw [if_neg hcap]
    rw [ List.length_append, htrunc, List.length_singleton] at hcap
    refine ⟨?_, ?_, ?_⟩
    · show (-1 : Int) ≤ s.currentIndex + 1
      omega
    · show s.currentIndex + 1 ≤ (((if s.currentIndex < (s.history.length : Int) - 1 then
          s.history.take (s.currentIndex + 1).toNat else s.history) ++ [x]).length : Int) - 1
      rw [ List.length_append, htrunc, List.length_singleton]
      omega
    · show ((if s.currentIndex < (s.history.length : Int) - 1 then
          s.history.take (s.currentIndex + 1).toNat else s.history) ++ [x]).length ≤ M
      rw [ List.length_append, htrunc, List.length_singleton]
      omega

theorem undoInv_applyOp {α : Type} {M : Nat} {s : UndoState α}
    (h : UndoManager.Inv M s) (op : UndoOp α) : UndoManager.Inv M (UndoManager.applyOp M s op) := by
  obtain ⟨h1, h2, h3⟩ := h
  cases op with
  | push x => exact undoInv_pushState ⟨h1, h2, h3⟩ x
  | undo =>
    show UndoManager.Inv M (UndoManager.undo s)
    unfold UndoManager.undo
    by_cases hc : UndoManager.canUndo s = true
    · rw [if_pos hc]
      unfold UndoManager.canUndo at hc
      rw [decide_eq_true_eq] at hc
      refine ⟨?_, ?_, ?_⟩
      · show (-1 : Int) ≤ s.currentIndex - 1
        omega
      · show s.currentIndex - 1 ≤ (s.history.length : Int) - 1
        omega
      · exact h3
    · rw [if_neg hc]
      exact ⟨h1, h2, h3⟩
  | redo =>
    show UndoManager.Inv M (UndoManager.redo s)
    unfold UndoManager.redo
    by_cases hc : UndoManager.canRedo s = true
    · rw [if_pos hc]
      unfold UndoManager.canRedo at hc
      rw [decide_eq_true_eq] at hc
      refine ⟨?_, ?_, ?_⟩
      · show (-1 : Int) ≤ s.currentIndex + 1
        omega
      · show s.currentIndex + 1 ≤ (s.history.length : Int) - 1
        omega
      · exact h3
    · rw [if_neg hc]
      exact ⟨h1, h2, h3⟩
  | clear =>
    show UndoManager.Inv M (UndoManager.clear s)
    refine ⟨le_refl _, ?_, ?_⟩ <;> simp [UndoManager.clear]

theorem undoInv_run {α : Type} (M : Nat) (ops : List (UndoOp α)) :
    UndoManager.Inv M (UndoManager.run M ops) := by
  unfold UndoManager.run
  have key : ∀ (l : List (UndoOp α)) (s : UndoState α), UndoManager.Inv M s →
      UndoManager.Inv M (l.foldl (UndoManager.applyOp M) s) := by
    intro l
    induction l with
    | nil => intro s hs; exact hs
    | cons op t ih => intro s hs; exact ih _ (undoInv_applyOp hs op)
  exact key ops _ (undoInv_init M)

theorem pushState_effects {α : Type} {M : Nat} {s : UndoState α} (x : α)
    (hInv : UndoManager.Inv M s) (hM : 1 ≤ M) :
    (UndoManager.pushState M s x).currentIndex
        = ((UndoManager.pushState M s x).history.length : Int) - 1
      ∧ (UndoManager.pushState M s x).history.getLast? = some x
      ∧ (s.currentIndex = (M : Int) - 1 →
          (UndoManager.pushState M s x).currentIndex = s.currentIndex) := by
  obtain ⟨h1, h2, h3⟩ := hInv
  unfold UndoManager.pushState
  dsimp only
  have htrunc : (if s.currentIndex < (s.history.length : Int) - 1 then
      s.history.take (s.currentIndex + 1).toNat else s.history).length
      = (s.currentIndex + 1).toNat := by
    by_cases hlt : s.currentIndex < (s.history.length : Int) - 1
    · rw [if_pos hlt, List.length_take]
      omega
    · rw [if_neg hlt]
      omega
  by_cases hcap : ((if s.currentIndex < (s.history.length : Int) - 1 then
      s.history.take (s.currentIndex + 1).toNat else s.history) ++ [x]).length > M
  · rw [if_pos hcap]
    rw [ List.length_append, htrunc, List.length_singleton] at hcap
    refine ⟨?_, ?_, fun _ => rfl⟩
    · simp only [ List.length_drop, List.length_append, htrunc, List.length_singleton]
      omega
    · have hne : (if s.currentIndex < (s.history.length : Int) - 1 then
          s.history.take (s.currentIndex + 1).toNat else s.history).length ≥ 1 := by
        rw [htrunc]
        omega
      rw [ List.drop_append_of_le_length (by omega), List.getLast?_concat]
  · rw [if_neg hcap]
    rw [ List.length_append, htrunc, List.length_singleton] at hcap
    refine ⟨?_, List.getLast?_concat _, ?_⟩
    · simp only [ List.length_append, htrunc, List.length_singleton]
      omega
    · intro hMi
      exfalso
      omega

/-- C10: from the initial state, every sequence of pushState/undo/redo/clear
operations preserves −1 ≤ currentIndex ≤ history.length − 1 and
history.length ≤ maxHistory; from any invariant state, pushState leaves no
redo tail (currentIndex = history.length − 1), the appended state is the
last entry, and when pushing at capacity (currentIndex = maxHistory − 1)
the oldest entry is evicted without incrementing currentIndex, which still
addresses the newly pushed state. -/
theorem claim10_undoManager_invariant {α : Type} (M : Nat) (ops : List (UndoOp α))
    (s : UndoState α) (x : α) (hM : 1 ≤ M) (hs : UndoManager.Inv M s) :
    (-1 ≤ (UndoManager.run M ops).currentIndex
      ∧ (UndoManager.run M ops).currentIndex
          ≤ ((UndoManager.run M ops).history.length : Int) - 1
      ∧ (UndoManager.run M ops).history.length ≤ M)
    ∧ (UndoManager.pushState M s x).currentIndex
        = ((UndoManager.pushState M s x).history.length : Int) - 1
    ∧ (UndoManager.pushState M s x).history.getLast? = some x
    ∧ (s.currentIndex = (M : Int) - 1 →
        (UndoManager.pushState M s x).currentIndex = s.currentIndex) := by
  have hrun := undoInv_run M ops
  have heff := pushState_effects x hs hM
  exact ⟨hrun, heff.1, heff.2.1, heff.2.2⟩

/-- C10 witness: the theorem applied at maxHistory 2, a concrete operation
sequence, the invariant state ⟨[5], 0⟩ and the pushed state 7. -/
theorem claim10_witness :
    (-1 ≤ (UndoManager.run 2 [UndoOp.push 1, UndoOp.push 2, UndoOp.push 3,
          UndoOp.undo]).currentIndex
      ∧ (UndoManager.run 2 [UndoOp.push 1, UndoOp.push 2, UndoOp.push 3,
            UndoOp.undo]).currentIndex
          ≤ ((UndoManager.run 2 [UndoOp.push 1, UndoOp.push 2, UndoOp.push 3,
              UndoOp.undo]).history.length : Int) - 1
      ∧ (UndoManager.run 2 [UndoOp.push 1, UndoOp.push 2, UndoOp.push 3,
            UndoOp.undo]).history.length ≤ 2)
    ∧ (UndoManager.pushState 2 (⟨[5], 0⟩ : UndoState Nat) 7).currentIndex
        = ((UndoManager.pushState 2 (⟨[5], 0⟩ : UndoState Nat) 7).history.length : Int) - 1
    ∧ (UndoManager.pushState 2 (⟨[5], 0⟩ : UndoState Nat) 7).history.getLast? = some 7
    ∧ ((⟨[5], 0⟩ : UndoState Nat).currentIndex = (2 : Int) - 1 →
        (UndoManager.pushState 2 (⟨[5], 0⟩ : UndoState Nat) 7).currentIndex
          = (⟨[5], 0⟩ : UndoState Nat).currentIndex) :=
  claim10_undoManager_invariant 2 [UndoOp.push 1, UndoOp.push 2, UndoOp.push 3, UndoOp.undo]
    (⟨[5], 0⟩ : UndoState Nat) 7 (by decide) ⟨by decide, by decide, by decide⟩

/-! ## Non-occurrence of "WHERE" in builds without conditions (claim C3)

Every glue string of `buildQuery` (`"SELECT "`, `" FROM "`, `", "`,
`" ORDER BY "`, `" LIMIT "`, `" "`) touches its neighbours with a space or
comma, and `WHERE` contains neither, so an occurrence of `WHERE` would have
to lie inside one user-supplied piece or one glue fragment. -/

theorem notW_select_append {F : String} (hF : ¬ "WHERE".data <:+: F.data) :
    ¬ "WHERE".data <:+: ("SELECT " ++ F).data := by
  have e : ("SELECT " ++ F).data = ['S', 'E', 'L', 'E', 'C', 'T'] ++ ' ' :: F.data := by
    have hd : ("SELECT " : String).data = 'S' :: 'E' :: 'L' :: 'E' :: 'C' :: 'T' :: ' ' :: [] := rfl
    simp [String.data_append, hd]
  rw [e]
  exact notInfix_append_cons (by decide) (by decide) (by decide) hF

theorem notW_from_append {a o : String} (ha : ¬ "WHERE".data <:+: a.data)
    (ho : ¬ "WHERE".data <:+: o.data) : ¬ "WHERE".data <:+: (a ++ " FROM " ++ o).data := by
  have e : (a ++ " FROM " ++ o).data = a.data ++ ' ' :: (['F', 'R', 'O', 'M'] ++ ' ' :: o.data) := by
    have hd : (" FROM " : String).data = ' ' :: 'F' :: 'R' :: 'O' :: 'M' :: ' ' :: [] := rfl
    simp [String.data_append, hd]
  rw [e]
  exact notInfix_append_cons (by decide) (by decide) ha
    (notInfix_append_cons (by decide) (by decide) (by decide) ho)

theorem notW_orderBy_append {a j : String} (ha : ¬ "WHERE".data <:+: a.data)
    (hj : ¬ "WHERE".data <:+: j.data) : ¬ "WHERE".data <:+: (a ++ " ORDER BY " ++ j).data := by
  have e : (a ++ " ORDER BY " ++ j).data
      = a.data ++ ' ' :: (['O', 'R', 'D', 'E', 'R'] ++ ' ' :: (['B', 'Y'] ++ ' ' :: j.data)) := by
    have hd : (" ORDER BY " : String).data
        = ' ' :: 'O' :: 'R' :: 'D' :: 'E' :: 'R' :: ' ' :: 'B' :: 'Y' :: ' ' :: [] := rfl
    simp [String.data_append, hd]
  rw [e]
  exact notInfix_append_cons (by decide) (by decide) ha
    (notInfix_append_cons (by decide) (by decide) (by decide)
      (notInfix_append_cons (by decide) (by decide) (by decide) hj))

theorem notW_limit_append {a s : String} (ha : ¬ "WHERE".data <:+: a.data)
    (hs : ¬ "WHERE".data <:+: s.data) : ¬ "WHERE".data <:+: (a ++ " LIMIT " ++ s).data := by
  have e : (a ++ " LIMIT " ++ s).data
      = a.data ++ ' ' :: (['L', 'I', 'M', 'I', 'T'] ++ ' ' :: s.data) := by
    have hd : (" LIMIT " : String).data = ' ' :: 'L' :: 'I' :: 'M' :: 'I' :: 'T' :: ' ' :: [] := rfl
    simp [String.data_append, hd]
  rw [e]
  exact notInfix_append_cons (by decide) (by decide) ha
    (notInfix_append_cons (by decide) (by decide) (by decide) hs)

theorem notW_pair {f d : String} (hf : ¬ "WHERE".data <:+: f.data)
    (hd : ¬ "WHERE".data <:+: d.data) : ¬ "WHERE".data <:+: (f ++ " " ++ d).data := by
  have e : (f ++ " " ++ d).data = f.data ++ ' ' :: d.data := by
    have hsp : (" " : String).data = ' ' :: [] := rfl
    simp [String.data_append, hsp]
  rw [e]
  exact notInfix_append_cons (by decide) (by decide) hf hd

theorem notW_join_comma :
    ∀ (l : List String), (∀ x ∈ l, ¬ "WHERE".data <:+: x.data) →
      ¬ "WHERE".data <:+: (joinWith ", " l).data := by
  intro l
  induction l with
  | nil =>
    intro _
    decide
  | cons x t ih =>
    intro h
    cases t with
    | nil => simpa [joinWith] using h x (by simp)
    | cons y t2 =>
      have e : (joinWith ", " (x :: y :: t2)).data
          = x.data ++ ',' :: (' ' :: (joinWith ", " (y :: t2)).data) := by
        show ((x ++ ", ") ++ joinWith ", " (y :: t2)).data = _
        have hd : (", " : String).data = ',' :: ' ' :: [] := rfl
        simp [String.data_append, hd]
      rw [e]
      refine notInfix_append_cons (by decide) (by decide) (h x (by simp)) ?_
      show ¬ "WHERE".data <:+: ([] ++ ' ' :: (joinWith ", " (y :: t2)).data)
      exact notInfix_append_cons (by decide) (by decide) (by decide)
        (ih (fun z hz => h z (List.mem_cons_of_mem _ hz)))

theorem digitChar_ne_W (m : Nat) : Nat.digitChar m ≠ 'W' := by
  by_cases h16 : m < 16
  · interval_cases m <;> decide
  · have e : Nat.digitChar m = '*' := by
      rw [Nat.digitChar]
      repeat rw [if_neg (by omega)]
    rw [e]
    decide

theorem toDigitsCore_no_W : ∀ (fuel n : Nat) (ds : List Char),
    (∀ c ∈ ds, c ≠ 'W') → ∀ c ∈ Nat.toDigitsCore 10 fuel n ds, c ≠ 'W' := by
  intro fuel
  induction fuel with
  | zero => intro n ds h c hc; exact h c hc
  | succ fuel ih =>
    intro n ds h c hc
    unfold Nat.toDigitsCore at hc
    dsimp only at hc
    split at hc
    · rcases List.mem_cons.mp hc with rfl | hm
      · exact digitChar_ne_W _
      · exact h c hm
    · refine ih _ _ ?_ c hc
      intro d hd
      rcases List.mem_cons.mp hd with rfl | hm
      · exact digitChar_ne_W _
      · exact h d hm

theorem natRepr_no_W (m : Nat) : 'W' ∉ (Nat.repr m).data := by
  intro hm
  have e : (Nat.repr m).data = Nat.toDigitsCore 10 (m + 1) m [] := rfl
  rw [e] at hm
  exact toDigitsCore_no_W (m + 1) m [] (by simp) 'W' hm rfl

theorem int_toString_no_W (n : Int) : ¬ "WHERE".data <:+: (toString n).data := by
  intro h
  have hW : 'W' ∈ (toString n).data := h.sublist.subset (by decide)
  have e : toString n = Int.repr n := rfl
  rw [e] at hW
  cases n with
  | ofNat m => exact natRepr_no_W m hW
  | negSucc m =>
    have e2 : (Int.repr (Int.negSucc m)).data = '-' :: (Nat.repr (m + 1)).data := rfl
    rw [e2] at hW
    rcases List.mem_cons.mp hW with hm | hm
    · exact absurd hm.symm (by decide)
    · exact natRepr_no_W (m + 1) hm

theorem notW_order_step (q : String) (ob : List OrderSpec)
    (hq : ¬ "WHERE".data <:+: q.data)
    (hord : ∀ o ∈ ob, ¬ "WHERE".data <:+: o.field.data ∧ ¬ "WHERE".data <:+: o.direction.data) :
    ¬ "WHERE".data <:+: ((if ob.isEmpty then q
        else q ++ " ORDER BY " ++ joinWith ", " (ob.map (fun o => o.field ++ " " ++ o.direction))) :
          String).data := by
  by_cases h : ob.isEmpty
  · rw [if_pos h]
    exact hq
  · rw [if_neg h]
    refine notW_orderBy_append hq (notW_join_comma _ ?_)
    intro x hx
    rcases List.mem_map.mp hx with ⟨o, ho, rfl⟩
    exact notW_pair (hord o ho).1 (hord o ho).2

theorem notW_limit_step (q : String) (lim : Option Int)
    (hq : ¬ "WHERE".data <:+: q.data) :
    ¬ "WHERE".data <:+: ((match lim with
        | some n => if n = 0 then q else q ++ " LIMIT " ++ toString n
        | none => q) : String).data := by
  rcases lim with - | n
  · exact hq
  · show ¬ "WHERE".data <:+: ((if n = 0 then q else q ++ " LIMIT " ++ toString n) : String).data
    by_cases hz : n = 0
    · rw [if_pos hz]
      exact hq
    · rw [if_neg hz]
      exact notW_limit_append hq (int_toString_no_W n)

/-- C3 counterexample: a builder state with no conditions whose selected
object is the string "WHERE" (the claim quantifies over all values of
`selectedObject`) produces "SELECT Id FROM WHERE", which contains an
occurrence of WHERE even though the query has no WHERE clause. -/
theorem claim3_counterexample :
    (⟨[], some "WHERE", [], [], none, "AND"⟩ : BuilderState).conditions = []
      ∧ jsIncludes (buildQuery ⟨[], some "WHERE", [], [], none, "AND"⟩) "WHERE" = true
      ∧ buildQuery ⟨[], some "WHERE", [], [], none, "AND"⟩ = "SELECT Id FROM WHERE" :=
  ⟨rfl, by decide, by decide⟩

/-- C3 (amended): for every builder state whose conditions sequence is
empty, the string returned by buildQuery contains no occurrence of WHERE,
provided the string WHERE does not occur inside a selected field name,
inside the selected object name, or inside an orderBy field or direction
(the limit remains fully quantified: its decimal rendering cannot contain
WHERE). -/
theorem claim3_no_where_without_conditions (st : BuilderState)
    (hconds : st.conditions = [])
    (hfields : ∀ f ∈ st.selectedFields, jsIncludes f "WHERE" = false)
    (hobj : ∀ o, st.selectedObject = some o → jsIncludes o "WHERE" = false)
    (horder : ∀ o ∈ st.orderBy,
      jsIncludes o.field "WHERE" = false ∧ jsIncludes o.direction "WHERE" = false) :
    jsIncludes (buildQuery st) "WHERE" = false := by
  rw [Bool.eq_false_iff]
  intro htrue
  have hinf := (jsIncludes_true_iff _ _).mp htrue
  refine absurd hinf ?_
  clear htrue hinf
  have hfields2 : ∀ f ∈ st.selectedFields, ¬ "WHERE".data <:+: f.data := by
    intro f hf hI
    have ht := (jsIncludes_true_iff f "WHERE").mpr hI
    rw [hfields f hf] at ht
    exact Bool.false_ne_true ht
  have hobj2 : ∀ o, st.selectedObject = some o → ¬ "WHERE".data <:+: o.data := by
    intro o ho hI
    have ht := (jsIncludes_true_iff o "WHERE").mpr hI
    rw [hobj o ho] at ht
    exact Bool.false_ne_true ht
  have horder2 : ∀ o ∈ st.orderBy,
      ¬ "WHERE".data <:+: o.field.data ∧ ¬ "WHERE".data <:+: o.direction.data := by
    intro o ho
    constructor
    · intro hI
      have ht := (jsIncludes_true_iff o.field "WHERE").mpr hI
      rw [(horder o ho).1] at ht
      exact Bool.false_ne_true ht
    · intro hI
      have ht := (jsIncludes_true_iff o.direction "WHERE").mpr hI
      rw [(horder o ho).2] at ht
      exact Bool.false_ne_true ht
  have hbase : ¬ "WHERE".data <:+: ("SELECT "
      ++ (if st.selectedFields.isEmpty then "Id" else joinWith ", " st.selectedFields)).data := by
    apply notW_select_append
    by_cases hf : st.selectedFields.isEmpty
    · rw [if_pos hf]
      decide
    · rw [if_neg hf]
      exact notW_join_comma _ hfields2
  unfold buildQuery
  dsimp only
  rw [hconds]
  simp only [ List.isEmpty_nil, if_true]
  cases hso : st.selectedObject with
  | none =>
    exact notW_limit_step _ st.limit (notW_order_step _ st.orderBy hbase horder2)
  | some o =>
    by_cases he : o.isEmpty
    · simp only [he, if_true]
      exact notW_limit_step _ st.limit (notW_order_step _ st.orderBy hbase horder2)
    · simp only [he, if_false]
      exact notW_limit_step _ st.limit
        (notW_order_step _ st.orderBy (notW_from_append hbase (hobj2 o hso)) horder2)

/-- C3 witness for the amended theorem: a concrete builder state with no
conditions, a selected object, fields, an order and a limit whose built
query contains no WHERE. -/
theorem claim3_witness :
    jsIncludes (buildQuery ⟨[], some "Account", ["Id", "Name"],
      [⟨"Name", "ASC"⟩], some 10, "AND"⟩) "WHERE" = false :=
  claim3_no_where_without_conditions
    ⟨[], some "Account", ["Id", "Name"], [⟨"Name", "ASC"⟩], some 10, "AND"⟩
    rfl (by decide) (by decide) (by decide)

end Easyforce
